import Mathlib

/-!
Verification of the go-ecs entity-component-system core (`ecs.go`).

The embedding models the type-erased pool registry: the process-wide type
identity table (`getTypeId`), the per-registry pool map and removal fan-out
list, the entity id counter, and the composition operations
`Set`/`Get`/`Get2`/`Get3`/`Init`/`Unset`/`Join`/`Add`/`Remove`.

Component types are represented by their runtime type identities
(natural numbers); a family `Val : Nat → Type` gives the Lean type of the
records stored under each type identity.  The dense sparse-set pool is an
external collaborator of the repository (the go-sparseset package); it is
modelled from the spec's Pool contract (§6): insert-or-overwrite `add`,
`get`, evict-if-present `remove`, with the dense sequence kept as a list.
-/

namespace GoECS

variable {κ : Type} [DecidableEq κ]

/-- Lookup of a key in a sequence of `(key, value)` pairs: the value of
the first pair carrying this key, if any. -/
def denseGet : List (κ × α) → κ → Option α
  | [], _ => none
  | x :: xs, id => if x.1 = id then some x.2 else denseGet xs id

/-- Insert-or-overwrite of an entity's record in a dense sequence:
overwrites in place when the id is already present, appends otherwise. -/
def denseAdd : List (Nat × α) → Nat → α → List (Nat × α)
  | [], id, v => [(id, v)]
  | x :: xs, id, v => if x.1 = id then (id, v) :: xs else x :: denseAdd xs id v

/-- Eviction of an entity's record from a dense sequence: drops the pairs
carrying this id, keeps everything else in order. -/
def denseRemove : List (Nat × α) → Nat → List (Nat × α)
  | [], _ => []
  | x :: xs, id => if x.1 = id then denseRemove xs id else x :: denseRemove xs id

/-- Modelled from the spec: the external Pool collaborator (spec §6), the
dense per-type storage keyed by entity id.  `dense` is the pool's dense
sequence of `(entityId, record)` pairs. -/
structure Pool (α : Type) where
  dense : List (Nat × α)
  deriving DecidableEq

namespace Pool

/-- Modelled from the spec: `Get(entityId) -> (ref, found)` (spec §6). -/
def get (p : Pool α) (id : Nat) : Option α :=
  denseGet p.dense id

/-- Modelled from the spec: `Add(entityId) -> ref` — insert-or-overwrite
(spec §6, §4.4: "overwriting if already present, inserting otherwise"). -/
def add (p : Pool α) (id : Nat) (v : α) : Pool α :=
  ⟨denseAdd p.dense id v⟩

/-- Modelled from the spec: `Remove(entityId)` — evicts if present, no-op
otherwise (spec §6). -/
def remove (p : Pool α) (id : Nat) : Pool α :=
  ⟨denseRemove p.dense id⟩

theorem get_add_self (p : Pool α) (id : Nat) (v : α) :
    (p.add id v).get id = some v := by
  unfold add get
  induction p.dense with
  | nil => simp [denseAdd, denseGet]
  | cons hd tl ih =>
    by_cases h : hd.1 = id
    · simp [denseAdd, denseGet, h]
    · simpa [denseAdd, denseGet, h] using ih

theorem get_add_other (p : Pool α) (id id' : Nat) (v : α) (h : id' ≠ id) :
    (p.add id v).get id' = p.get id' := by
  unfold add get
  induction p.dense with
  | nil => simp [denseAdd, denseGet, Ne.symm h]
  | cons hd tl ih =>
    by_cases hhd : hd.1 = id
    · have : hd.1 ≠ id' := by rw [hhd]; exact Ne.symm h
      simp [denseAdd, denseGet, hhd, this, Ne.symm h]
    · by_cases hhd' : hd.1 = id'
      · simp [denseAdd, denseGet, hhd, hhd', h]
      · simpa [denseAdd, denseGet, hhd, hhd'] using ih

theorem remove_remove (p : Pool α) (id : Nat) :
    (p.remove id).remove id = p.remove id := by
  unfold remove
  refine congrArg Pool.mk ?_
  induction p.dense with
  | nil => simp [denseRemove]
  | cons hd tl ih =>
    by_cases h : hd.1 = id
    · simpa [denseRemove, h] using ih
    · simpa [denseRemove, h] using ih

theorem get_remove_self (p : Pool α) (id : Nat) :
    (p.remove id).get id = none := by
  unfold remove get
  induction p.dense with
  | nil => simp [denseRemove, denseGet]
  | cons hd tl ih =>
    by_cases h : hd.1 = id
    · simpa [denseRemove, h] using ih
    · simpa [denseRemove, denseGet, h] using ih

theorem get_remove_other (p : Pool α) (id id' : Nat) (h : id' ≠ id) :
    (p.remove id).get id' = p.get id' := by
  unfold remove get
  induction p.dense with
  | nil => simp [denseRemove]
  | cons hd tl ih =>
    by_cases hhd : hd.1 = id
    · have : hd.1 ≠ id' := by rw [hhd]; exact Ne.symm h
      simpa [denseRemove, denseGet, hhd, this, Ne.symm h] using ih
    · by_cases hhd' : hd.1 = id'
      · simp [denseRemove, denseGet, hhd, hhd', h]
      · simpa [denseRemove, denseGet, hhd, hhd'] using ih

theorem remove_of_get_none (p : Pool α) (id : Nat) (h : p.get id = none) :
    p.remove id = p := by
  obtain ⟨l⟩ := p
  unfold remove get at *
  simp only at h ⊢
  refine congrArg Pool.mk ?_
  induction l with
  | nil => simp [denseRemove]
  | cons hd tl ih =>
    by_cases hhd : hd.1 = id
    · simp [denseGet, hhd] at h
    · simp only [denseGet, if_neg hhd] at h
      simp [denseRemove, hhd, ih h]

theorem get_isSome_iff_exists (p : Pool α) (id : Nat) :
    (p.get id).isSome = true ↔ ∃ x ∈ p.dense, x.1 = id := by
  unfold get
  induction p.dense with
  | nil => simp [denseGet]
  | cons hd tl ih =>
    by_cases hhd : hd.1 = id
    · simp [denseGet, hhd]
    · simp [denseGet, hhd, ih]

end Pool

/-- The ECS registry state (`ECS` struct in `ecs.go`): default pool page
size, the reserved null key, the type-erased pool map keyed by type
identity, the removal fan-out list (`removers`, in pool-creation order,
kept as the list of type identities of the created pools), and the entity
id counter (`idGenerator`). -/
@[ext]
structure ECS (Val : Nat → Type) where
  defaultPageSize : Nat
  nullKey : Nat
  pools : (t : Nat) → Option (Pool (Val t))
  removers : List Nat
  idGenerator : Nat

variable {Val : Nat → Type}

/-- `getPool[T](e)` from `ecs.go`: look up the pool for type identity `t`
in the pool map, without creating it. -/
def getPool (e : ECS Val) (t : Nat) : Option (Pool (Val t)) :=
  e.pools t

/-- `initPool[T](e)` from `ecs.go`: return the existing pool for `t` if
present; otherwise create an empty pool, register it in the pool map and
append it to the removal fan-out list.  Returns the pool together with
the updated registry. -/
def initPool (e : ECS Val) (t : Nat) : Pool (Val t) × ECS Val :=
  match e.pools t with
  | some p => (p, e)
  | none =>
    let p : Pool (Val t) := ⟨[]⟩
    (p, { e with pools := Function.update e.pools t (some p),
                 removers := e.removers ++ [t] })

/-- The write `*pool.Add(entityId) = a` performed through the pool pointer
in `ecs.go`: insert-or-overwrite the record for `id` in `t`'s pool.  When
no pool exists for `t` the state is unchanged (in `Set`/`Init` this case
cannot arise because `initPool` runs first). -/
def addToPool (e : ECS Val) (t : Nat) (id : Nat) (v : Val t) : ECS Val :=
  match e.pools t with
  | some p => { e with pools := Function.update e.pools t (some (p.add id v)) }
  | none => e

/-- `(*ECS).Add` from `ecs.go`: return the current counter value as the new
entity id and increment the counter.  The counter is a Go `int` (64-bit),
so the increment wraps modulo `2 ^ 64`; the counter field holds the 64-bit
pattern and `goSigned` below gives its value as a Go `int`. -/
def ECS.Add (e : ECS Val) : Nat × ECS Val :=
  (e.idGenerator, { e with idGenerator := (e.idGenerator + 1) % 2 ^ 64 })

/-- The signed (Go `int`) value of a 64-bit counter pattern. -/
def goSigned (n : Nat) : Int :=
  if n < 2 ^ 63 then (n : Int) else (n : Int) - 2 ^ 64

/-- The loop body of `(*ECS).Remove`: walk the fan-out list in creation
order and evict `id` from each listed pool. -/
def removeAll (id : Nat) : List Nat → ((t : Nat) → Option (Pool (Val t))) →
    (t : Nat) → Option (Pool (Val t))
  | [], ps => ps
  | t :: rest, ps =>
      removeAll id rest (Function.update ps t ((ps t).map (fun p => p.remove id)))

/-- `(*ECS).Remove` from `ecs.go`: fan the removal of `id` out to every
pool ever created, in creation order. -/
def ECS.Remove (e : ECS Val) (id : Nat) : ECS Val :=
  { e with pools := removeAll id e.removers e.pools }

/-- `New` from `ecs.go`: a fresh registry with default options. -/
def New : ECS Val :=
  ⟨4096, 2 ^ 20, fun _ => none, [], 0⟩

/-- `Set[A](e, entityId, a)` from `ecs.go`: `initPool` then store through
the returned pool. -/
def Set (e : ECS Val) (t id : Nat) (v : Val t) : ECS Val :=
  addToPool (initPool e t).2 t id v

/-- `Set2[A, B]` from `ecs.go`: create/fetch both pools, then store both
records. -/
def Set2 (e : ECS Val) (ta tb id : Nat) (a : Val ta) (b : Val tb) : ECS Val :=
  addToPool (addToPool (initPool (initPool e ta).2 tb).2 ta id a) tb id b

/-- `Init[A](e, entityId, a)` from `ecs.go`: `e.Remove(entityId)` followed
by the body of `Set`. -/
def Init (e : ECS Val) (t id : Nat) (v : Val t) : ECS Val :=
  addToPool (initPool (e.Remove id) t).2 t id v

/-- `Get[T](e, entityId)` from `ecs.go`: `none` when `T`'s pool is absent,
otherwise the pool lookup. -/
def Get (e : ECS Val) (t id : Nat) : Option (Val t) :=
  match e.pools t with
  | none => none
  | some p => p.get id

/-- `Get2[A, B]` from `ecs.go`: both pools must exist and the entity must
hold a record in each; otherwise not found. -/
def Get2 (e : ECS Val) (ta tb id : Nat) : Option (Val ta × Val tb) :=
  match e.pools ta with
  | none => none
  | some p1 =>
    match e.pools tb with
    | none => none
    | some p2 =>
      match p1.get id, p2.get id with
      | some a, some b => some (a, b)
      | _, _ => none

/-- `Get3[A, B, C]` from `ecs.go`. -/
def Get3 (e : ECS Val) (ta tb tc id : Nat) : Option (Val ta × Val tb × Val tc) :=
  match e.pools ta with
  | none => none
  | some p1 =>
    match e.pools tb with
    | none => none
    | some p2 =>
      match e.pools tc with
      | none => none
      | some p3 =>
        match p1.get id, p2.get id, p3.get id with
        | some a, some b, some c => some (a, b, c)
        | _, _, _ => none

/-- `Unset[T](e, entityId)` from `ecs.go`: no-op when `T`'s pool is absent,
otherwise evict `entityId` from that pool only. -/
def Unset (e : ECS Val) (t id : Nat) : ECS Val :=
  match e.pools t with
  | none => e
  | some p => { e with pools := Function.update e.pools t (some (p.remove id)) }

/-- `Join[A, B](e)` from `ecs.go`: empty when either pool is absent;
otherwise the intersection sequence, driving `A`'s dense order and probing
`B`'s pool for each candidate (spec §4.4). -/
def Join (e : ECS Val) (ta tb : Nat) : List (Nat × Val ta × Val tb) :=
  match e.pools ta with
  | none => []
  | some p1 =>
    match e.pools tb with
    | none => []
    | some p2 =>
      p1.dense.filterMap (fun x => (p2.get x.1).map (fun b => (x.1, x.2, b)))

/-! ### State lemmas -/

theorem Get_pools_some (e : ECS Val) (t id : Nat) (p : Pool (Val t))
    (hp : e.pools t = some p) : Get e t id = p.get id := by
  unfold Get
  rw [hp]

theorem Get_pools_none (e : ECS Val) (t id : Nat) (hp : e.pools t = none) :
    Get e t id = none := by
  unfold Get
  rw [hp]

theorem initPool_pools_self (e : ECS Val) (t : Nat) :
    ((initPool e t).2).pools t = some ((initPool e t).1) := by
  unfold initPool
  cases h : e.pools t with
  | some p => exact h
  | none => simp

theorem initPool_pools_ne (e : ECS Val) (t t' : Nat) (h : t' ≠ t) :
    ((initPool e t).2).pools t' = e.pools t' := by
  unfold initPool
  cases hp : e.pools t with
  | some p => simp
  | none => simp [Function.update_noteq h]

theorem initPool_fst_get (e : ECS Val) (t id : Nat) :
    ((initPool e t).1).get id = Get e t id := by
  unfold initPool Get
  cases hp : e.pools t with
  | some p => simp
  | none => simp [Pool.get, denseGet]

theorem initPool_idGenerator (e : ECS Val) (t : Nat) :
    ((initPool e t).2).idGenerator = e.idGenerator := by
  unfold initPool
  cases hp : e.pools t <;> simp

theorem initPool_removers (e : ECS Val) (t : Nat) :
    ((initPool e t).2).removers =
      if (e.pools t).isSome then e.removers else e.removers ++ [t] := by
  unfold initPool
  cases hp : e.pools t <;> simp

theorem addToPool_pools_self (e : ECS Val) (t id : Nat) (v : Val t) (p : Pool (Val t))
    (hp : e.pools t = some p) :
    (addToPool e t id v).pools t = some (p.add id v) := by
  unfold addToPool
  rw [hp]
  simp

theorem addToPool_pools_ne (e : ECS Val) (t t' id : Nat) (v : Val t) (h : t' ≠ t) :
    (addToPool e t id v).pools t' = e.pools t' := by
  unfold addToPool
  cases hp : e.pools t with
  | some p => simp [Function.update_noteq h]
  | none => rfl

theorem addToPool_removers (e : ECS Val) (t id : Nat) (v : Val t) :
    (addToPool e t id v).removers = e.removers := by
  unfold addToPool
  cases hp : e.pools t <;> rfl

theorem addToPool_idGenerator (e : ECS Val) (t id : Nat) (v : Val t) :
    (addToPool e t id v).idGenerator = e.idGenerator := by
  unfold addToPool
  cases hp : e.pools t <;> rfl

theorem Set_pools_self (e : ECS Val) (t id : Nat) (v : Val t) :
    (Set e t id v).pools t = some (((initPool e t).1).add id v) :=
  addToPool_pools_self _ t id v _ (initPool_pools_self e t)

theorem Set_pools_ne (e : ECS Val) (t t' id : Nat) (v : Val t) (h : t' ≠ t) :
    (Set e t id v).pools t' = e.pools t' := by
  unfold Set
  rw [addToPool_pools_ne _ _ _ _ _ h, initPool_pools_ne _ _ _ h]

theorem Set_idGenerator (e : ECS Val) (t id : Nat) (v : Val t) :
    (Set e t id v).idGenerator = e.idGenerator := by
  unfold Set
  rw [addToPool_idGenerator, initPool_idGenerator]

theorem Get_Set_self (e : ECS Val) (t id : Nat) (v : Val t) :
    Get (Set e t id v) t id = some v := by
  unfold Get
  rw [Set_pools_self]
  exact Pool.get_add_self _ id v

theorem Get_Set_ne_type (e : ECS Val) (t t' id id' : Nat) (v : Val t) (h : t' ≠ t) :
    Get (Set e t id v) t' id' = Get e t' id' := by
  unfold Get
  rw [Set_pools_ne _ _ _ _ _ h]

theorem Get_Set_ne_id (e : ECS Val) (t id id' : Nat) (v : Val t) (h : id' ≠ id) :
    Get (Set e t id v) t id' = Get e t id' := by
  rw [Get_pools_some _ _ _ _ (Set_pools_self e t id v),
    Pool.get_add_other _ _ _ _ h, initPool_fst_get]

theorem removeAll_eq (id : Nat) (ts : List Nat)
    (ps : (t : Nat) → Option (Pool (Val t))) (t : Nat) :
    removeAll id ts ps t =
      if t ∈ ts then (ps t).map (fun p => p.remove id) else ps t := by
  induction ts generalizing ps with
  | nil => simp [removeAll]
  | cons hd rest ih =>
    simp only [removeAll]
    rw [ih]
    by_cases hhd : t = hd
    · subst hhd
      rw [Function.update_same]
      by_cases hmem : t ∈ rest
      · simp only [hmem, if_pos, List.mem_cons, true_or, or_true]
        cases ps t <;> simp [Pool.remove_remove]
      · simp [hmem]
    · rw [Function.update_noteq hhd]
      simp [hhd]

theorem Remove_pools (e : ECS Val) (id t : Nat) :
    (e.Remove id).pools t =
      if t ∈ e.removers then (e.pools t).map (fun p => p.remove id)
      else e.pools t :=
  removeAll_eq id e.removers e.pools t

theorem Remove_removers (e : ECS Val) (id : Nat) :
    (e.Remove id).removers = e.removers := rfl

theorem Remove_idGenerator (e : ECS Val) (id : Nat) :
    (e.Remove id).idGenerator = e.idGenerator := rfl

theorem Set2_pools_left (e : ECS Val) (ta tb id : Nat) (a : Val ta) (b : Val tb)
    (h : ta ≠ tb) :
    (Set2 e ta tb id a b).pools ta = some (((initPool e ta).1).add id a) := by
  unfold Set2
  rw [addToPool_pools_ne _ _ _ _ _ h]
  exact addToPool_pools_self _ _ _ _ _
    ((initPool_pools_ne _ _ _ h).trans (initPool_pools_self e ta))

theorem Set2_pools_right (e : ECS Val) (ta tb id : Nat) (a : Val ta) (b : Val tb)
    (h : ta ≠ tb) :
    (Set2 e ta tb id a b).pools tb =
      some (((initPool (initPool e ta).2 tb).1).add id b) := by
  unfold Set2
  exact addToPool_pools_self _ _ _ _ _
    ((addToPool_pools_ne _ _ _ _ _ (Ne.symm h)).trans
      (initPool_pools_self (initPool e ta).2 tb))

theorem Set2_pools_other (e : ECS Val) (ta tb t' id : Nat) (a : Val ta) (b : Val tb)
    (ha : t' ≠ ta) (hb : t' ≠ tb) :
    (Set2 e ta tb id a b).pools t' = e.pools t' := by
  unfold Set2
  rw [addToPool_pools_ne _ _ _ _ _ hb, addToPool_pools_ne _ _ _ _ _ ha,
    initPool_pools_ne _ _ _ hb, initPool_pools_ne _ _ _ ha]

theorem Get_Set2_left (e : ECS Val) (ta tb id : Nat) (a : Val ta) (b : Val tb)
    (h : ta ≠ tb) : Get (Set2 e ta tb id a b) ta id = some a := by
  rw [Get_pools_some _ _ _ _ (Set2_pools_left e ta tb id a b h)]
  exact Pool.get_add_self _ id a

theorem Get_Set2_right (e : ECS Val) (ta tb id : Nat) (a : Val ta) (b : Val tb)
    (h : ta ≠ tb) : Get (Set2 e ta tb id a b) tb id = some b := by
  rw [Get_pools_some _ _ _ _ (Set2_pools_right e ta tb id a b h)]
  exact Pool.get_add_self _ id b

theorem Unset_pools_self (e : ECS Val) (t id : Nat) (p : Pool (Val t))
    (hp : e.pools t = some p) :
    (Unset e t id).pools t = some (p.remove id) := by
  unfold Unset
  rw [hp]
  simp

theorem Unset_pools_ne (e : ECS Val) (t t' id : Nat) (h : t' ≠ t) :
    (Unset e t id).pools t' = e.pools t' := by
  unfold Unset
  cases hp : e.pools t with
  | some p => simp [Function.update_noteq h]
  | none => rfl

theorem Unset_removers (e : ECS Val) (t id : Nat) :
    (Unset e t id).removers = e.removers := by
  unfold Unset
  cases hp : e.pools t <;> rfl

theorem Unset_idGenerator (e : ECS Val) (t id : Nat) :
    (Unset e t id).idGenerator = e.idGenerator := by
  unfold Unset
  cases hp : e.pools t <;> rfl

theorem Unset_of_pools_none (e : ECS Val) (t id : Nat) (hp : e.pools t = none) :
    Unset e t id = e := by
  unfold Unset
  rw [hp]

theorem Unset_of_Get_none (e : ECS Val) (t id : Nat) (h : Get e t id = none) :
    Unset e t id = e := by
  unfold Unset
  cases hp : e.pools t with
  | none => rfl
  | some p =>
    have hg : p.get id = none := by
      rw [Get_pools_some _ _ _ _ hp] at h
      exact h
    have hupd : Function.update e.pools t (some (p.remove id)) = e.pools := by
      rw [Pool.remove_of_get_none _ _ hg, ← hp]
      exact Function.update_eq_self t e.pools
    simp only [hupd]

theorem Remove_Remove (e : ECS Val) (id : Nat) :
    (e.Remove id).Remove id = e.Remove id := by
  have hps : ((e.Remove id).Remove id).pools = (e.Remove id).pools := by
    funext t
    rw [Remove_pools, Remove_removers, Remove_pools]
    by_cases hm : t ∈ e.removers
    · simp only [hm, if_pos]
      cases e.pools t <;> simp [Pool.remove_remove]
    · simp [hm]
  exact ECS.ext rfl rfl hps rfl rfl

theorem Remove_of_no_record (e : ECS Val) (id : Nat)
    (h : ∀ t (p : Pool (Val t)), e.pools t = some p → p.get id = none) :
    e.Remove id = e := by
  have hps : (e.Remove id).pools = e.pools := by
    funext t
    rw [Remove_pools]
    by_cases hm : t ∈ e.removers
    · simp only [hm, if_pos]
      cases hp : e.pools t with
      | none => rfl
      | some p => simp [Pool.remove_of_get_none _ _ (h t p hp)]
    · simp [hm]
  exact ECS.ext rfl rfl hps rfl rfl

theorem Join_mem_iff (e : ECS Val) (ta tb id : Nat) :
    (∃ a b, (id, a, b) ∈ Join e ta tb) ↔ (Get2 e ta tb id).isSome = true := by
  unfold Join Get2
  cases h1 : e.pools ta with
  | none => simp
  | some p1 =>
    cases h2 : e.pools tb with
    | none => simp
    | some p2 =>
      dsimp only
      constructor
      · rintro ⟨a, b, hmem⟩
        rw [List.mem_filterMap] at hmem
        obtain ⟨x, hx, hfx⟩ := hmem
        rw [Option.map_eq_some'] at hfx
        obtain ⟨b', hb', heq⟩ := hfx
        have hx1 : x.1 = id := congrArg (fun q => q.1) heq
        have hp1 : (p1.get id).isSome = true :=
          (Pool.get_isSome_iff_exists p1 id).2 ⟨x, hx, hx1⟩
        rw [hx1] at hb'
        have hb'' : b' = b := by
          have := congrArg (fun q => q.2.2) heq
          simpa using this
        obtain ⟨a', ha'⟩ := Option.isSome_iff_exists.1 hp1
        rw [ha', hb']
        rfl
      · intro hs
        cases hg1 : p1.get id with
        | none => rw [hg1] at hs; cases hg2 : p2.get id <;> simp [hg2] at hs
        | some a =>
          cases hg2 : p2.get id with
          | none => rw [hg1, hg2] at hs; simp at hs
          | some b =>
            have hex : ∃ x ∈ p1.dense, x.1 = id :=
              (Pool.get_isSome_iff_exists p1 id).1 (by rw [hg1]; rfl)
            obtain ⟨x, hx, hx1⟩ := hex
            refine ⟨x.2, b, ?_⟩
            rw [List.mem_filterMap]
            exact ⟨x, hx, by rw [hx1, hg2]; rfl⟩

theorem Join_empty_of_absent (e : ECS Val) (ta tb : Nat)
    (h : e.pools ta = none ∨ e.pools tb = none) :
    Join e ta tb = [] := by
  unfold Join
  rcases h with h | h
  · rw [h]
  · cases h1 : e.pools ta with
    | none => rfl
    | some p1 => rw [h]

/-- Registry well-formedness: every pool registered in the pool map is
also on the removal fan-out list.  `initPool` (the only pool creator)
maintains this by construction. -/
def WF (e : ECS Val) : Prop :=
  ∀ t, (e.pools t).isSome → t ∈ e.removers

theorem wf_New : WF (New : ECS Val) := by
  intro t h
  simp [New] at h

theorem wf_initPool (e : ECS Val) (t : Nat) (h : WF e) : WF ((initPool e t).2) := by
  intro t' h'
  unfold initPool at *
  cases hp : e.pools t with
  | some p =>
    rw [hp] at h'
    exact h t' h'
  | none =>
    rw [hp] at h'
    simp only at h'
    by_cases he : t' = t
    · subst he; simp
    · rw [Function.update_noteq he] at h'
      simp only
      exact List.mem_append_left _ (h t' h')

theorem wf_addToPool (e : ECS Val) (t id : Nat) (v : Val t) (h : WF e) :
    WF (addToPool e t id v) := by
  intro t' h'
  unfold addToPool at *
  cases hp : e.pools t with
  | some p =>
    rw [hp] at h'
    simp only at h' ⊢
    by_cases he : t' = t
    · subst he
      exact h t' (by simp [hp])
    · rw [Function.update_noteq he] at h'
      exact h t' h'
  | none =>
    rw [hp] at h'
    exact h t' h'

theorem wf_Set (e : ECS Val) (t id : Nat) (v : Val t) (h : WF e) :
    WF (Set e t id v) :=
  wf_addToPool _ _ _ _ (wf_initPool _ _ h)

theorem wf_Set2 (e : ECS Val) (ta tb id : Nat) (a : Val ta) (b : Val tb) (h : WF e) :
    WF (Set2 e ta tb id a b) :=
  wf_addToPool _ _ _ _ (wf_addToPool _ _ _ _ (wf_initPool _ _ (wf_initPool _ _ h)))

theorem wf_Remove (e : ECS Val) (id : Nat) (h : WF e) : WF (e.Remove id) := by
  intro t h'
  rw [Remove_pools] at h'
  rw [Remove_removers]
  by_cases hm : t ∈ e.removers
  · exact hm
  · rw [if_neg hm] at h'
    exact h t h'

theorem Init_eq_Remove_Set (e : ECS Val) (t id : Nat) (v : Val t) :
    Init e t id v = Set (e.Remove id) t id v := rfl

theorem Init_idGenerator (e : ECS Val) (t id : Nat) (v : Val t) :
    (Init e t id v).idGenerator = e.idGenerator := by
  rw [Init_eq_Remove_Set, Set_idGenerator, Remove_idGenerator]

theorem pools_isSome_Remove (e : ECS Val) (id t : Nat)
    (h : (e.pools t).isSome = true) : ((e.Remove id).pools t).isSome = true := by
  rw [Remove_pools]
  by_cases hm : t ∈ e.removers
  · rw [if_pos hm]
    cases hp : e.pools t with
    | none => rw [hp] at h; exact absurd h (by simp)
    | some p => rfl
  · rw [if_neg hm]
    exact h

theorem pools_isSome_Set (e : ECS Val) (t' id t : Nat) (v : Val t')
    (h : (e.pools t).isSome = true) : ((Set e t' id v).pools t).isSome = true := by
  by_cases he : t = t'
  · subst he
    rw [Set_pools_self]
    rfl
  · rw [Set_pools_ne _ _ _ _ _ he]
    exact h

theorem pools_isSome_Unset (e : ECS Val) (t' id t : Nat)
    (h : (e.pools t).isSome = true) : ((Unset e t' id).pools t).isSome = true := by
  by_cases he : t = t'
  · subst he
    cases hp : e.pools t with
    | none => rw [Unset_of_pools_none _ _ _ hp]; exact h
    | some p => rw [Unset_pools_self _ _ _ _ hp]; rfl
  · rw [Unset_pools_ne _ _ _ _ he]
    exact h

theorem wf_Unset (e : ECS Val) (t id : Nat) (h : WF e) : WF (Unset e t id) := by
  intro t' h'
  unfold Unset at *
  cases hp : e.pools t with
  | some p =>
    rw [hp] at h'
    simp only at h' ⊢
    by_cases he : t' = t
    · subst he
      exact h t' (by simp [hp])
    · rw [Function.update_noteq he] at h'
      exact h t' h'
  | none =>
    rw [hp] at h'
    exact h t' h'

/-! ### Operation sequences -/

/-- One public operation on the registry. -/
inductive Op (Val : Nat → Type) where
  | add : Op Val
  | remove (id : Nat) : Op Val
  | set (t id : Nat) (v : Val t) : Op Val
  | unset (t id : Nat) : Op Val
  | init (t id : Nat) (v : Val t) : Op Val

/-- Execute one operation: the next state, plus the entity id returned
when the operation was an `Add`. -/
def applyOp (e : ECS Val) : Op Val → ECS Val × Option Nat
  | .add => ((ECS.Add e).2, some (ECS.Add e).1)
  | .remove id => (e.Remove id, none)
  | .set t id v => (Set e t id v, none)
  | .unset t id => (Unset e t id, none)
  | .init t id v => (Init e t id v, none)

/-- Execute a sequence of operations, collecting the ids returned by the
`Add` calls in order. -/
def run (e : ECS Val) : List (Op Val) → ECS Val × List Nat
  | [] => (e, [])
  | op :: ops =>
    let s := applyOp e op
    let r := run s.1 ops
    (r.1, s.2.toList ++ r.2)

/-- The number of `Add` calls in an operation sequence. -/
def addCount : List (Op Val) → Nat
  | [] => 0
  | .add :: ops => addCount ops + 1
  | .remove _ :: ops => addCount ops
  | .set _ _ _ :: ops => addCount ops
  | .unset _ _ :: ops => addCount ops
  | .init _ _ _ :: ops => addCount ops

theorem run_cons_none (e : ECS Val) (op : Op Val) (ops : List (Op Val))
    (hnone : (applyOp e op).2 = none) :
    run e (op :: ops) = run (applyOp e op).1 ops := by
  simp [run, hnone]

theorem run_cons_add (e : ECS Val) (ops : List (Op Val)) :
    run e (Op.add :: ops) =
      ((run (applyOp e Op.add).1 ops).1,
        e.idGenerator :: (run (applyOp e Op.add).1 ops).2) := rfl

/-- As long as the id counter does not overflow the 64-bit Go `int`, a
run behaves like an unbounded counter: the ids returned by `Add` sit in
the window `[idGenerator, idGenerator + addCount)`, are pairwise strictly
increasing, and the final counter is the initial one plus the number of
`Add` calls. -/
theorem run_no_wrap (ops : List (Op Val)) (e : ECS Val)
    (h : e.idGenerator + addCount ops < 2 ^ 64) :
    (∀ i ∈ (run e ops).2,
      e.idGenerator ≤ i ∧ i < e.idGenerator + addCount ops) ∧
    List.Pairwise (· < ·) (run e ops).2 ∧
    (run e ops).1.idGenerator = e.idGenerator + addCount ops := by
  induction ops generalizing e with
  | nil => exact ⟨by simp [run], by simp [run], by simp [run, addCount]⟩
  | cons op ops ih =>
    cases op with
    | add =>
      have hc : addCount (Op.add :: ops) = addCount ops + 1 := rfl
      rw [hc] at h ⊢
      have hgen : ((applyOp e Op.add).1).idGenerator = e.idGenerator + 1 := by
        show (e.idGenerator + 1) % 2 ^ 64 = e.idGenerator + 1
        exact Nat.mod_eq_of_lt (by omega)
      obtain ⟨ihb, ihp, ihg⟩ := ih _ (by rw [hgen]; omega)
      rw [hgen] at ihb ihg
      rw [run_cons_add]
      refine ⟨?_, ?_, by rw [ihg]; omega⟩
      · intro i hi
        rcases List.mem_cons.1 hi with hi | hi
        · subst hi
          exact ⟨le_refl _, by omega⟩
        · have := ihb i hi
          exact ⟨by omega, by omega⟩
      · refine List.Pairwise.cons ?_ ihp
        intro i hi
        have := (ihb i hi).1
        omega
    | remove id =>
      rw [run_cons_none e (Op.remove id) ops rfl]
      have hgen : ((applyOp e (Op.remove id)).1).idGenerator = e.idGenerator :=
        Remove_idGenerator e id
      obtain ⟨ihb, ihp, ihg⟩ := ih _ (by rw [hgen]; exact h)
      rw [hgen] at ihb ihg
      exact ⟨ihb, ihp, ihg⟩
    | set t id v =>
      rw [run_cons_none e (Op.set t id v) ops rfl]
      have hgen : ((applyOp e (Op.set t id v)).1).idGenerator = e.idGenerator :=
        Set_idGenerator e t id v
      obtain ⟨ihb, ihp, ihg⟩ := ih _ (by rw [hgen]; exact h)
      rw [hgen] at ihb ihg
      exact ⟨ihb, ihp, ihg⟩
    | unset t id =>
      rw [run_cons_none e (Op.unset t id) ops rfl]
      have hgen : ((applyOp e (Op.unset t id)).1).idGenerator = e.idGenerator :=
        Unset_idGenerator e t id
      obtain ⟨ihb, ihp, ihg⟩ := ih _ (by rw [hgen]; exact h)
      rw [hgen] at ihb ihg
      exact ⟨ihb, ihp, ihg⟩
    | init t id v =>
      rw [run_cons_none e (Op.init t id v) ops rfl]
      have hgen : ((applyOp e (Op.init t id v)).1).idGenerator = e.idGenerator :=
        Init_idGenerator e t id v
      obtain ⟨ihb, ihp, ihg⟩ := ih _ (by rw [hgen]; exact h)
      rw [hgen] at ihb ihg
      exact ⟨ihb, ihp, ihg⟩

theorem pools_isSome_applyOp (e : ECS Val) (op : Op Val) (t : Nat)
    (h : (e.pools t).isSome = true) :
    (((applyOp e op).1).pools t).isSome = true := by
  cases op with
  | add => exact h
  | remove id => exact pools_isSome_Remove e id t h
  | set t' id v => exact pools_isSome_Set e t' id t v h
  | unset t' id => exact pools_isSome_Unset e t' id t h
  | init t' id v =>
    exact pools_isSome_Set (e.Remove id) t' id t v (pools_isSome_Remove e id t h)

/-! ### The process-wide type identity table -/

/-- The process-wide type identity state of `ecs.go`: the counter
`typeIdGen` and the table `typeIds` mapping each runtime type (an abstract
key of type `τ`) to its allocated identity. -/
structure TypeTable (τ : Type) where
  typeIdGen : Nat
  typeIds : List (τ × Nat)

/-- `getTypeId[T]()` from `ecs.go`: return the remembered identity of `t`,
or allocate the next one, remember it, and bump the counter.  `typeIdGen`
is a Go `int` (64-bit), so the bump wraps modulo `2 ^ 64`. -/
def getTypeId [DecidableEq τ] (r : TypeTable τ) (t : τ) : Nat × TypeTable τ :=
  match denseGet r.typeIds t with
  | some i => (i, r)
  | none =>
    (r.typeIdGen, ⟨(r.typeIdGen + 1) % 2 ^ 64, r.typeIds ++ [(t, r.typeIdGen)]⟩)

/-- The initial (empty) type identity table. -/
def TypeTable.empty (τ : Type) : TypeTable τ := ⟨0, []⟩

/-- Well-formedness of the type identity table: every stored identity is
below the counter, no type occurs twice, and no identity occurs twice. -/
def TWF (r : TypeTable τ) : Prop :=
  (∀ x ∈ r.typeIds, x.2 < r.typeIdGen) ∧
  (r.typeIds.map Prod.fst).Nodup ∧
  (r.typeIds.map Prod.snd).Nodup

theorem denseGet_append (l1 l2 : List (κ × α)) (k : κ) :
    denseGet (l1 ++ l2) k =
      match denseGet l1 k with
      | some v => some v
      | none => denseGet l2 k := by
  induction l1 with
  | nil => simp [denseGet]
  | cons hd tl ih =>
    by_cases h : hd.1 = k
    · simp [denseGet, h]
    · simpa [denseGet, h] using ih

theorem denseGet_eq_none_iff (l : List (κ × α)) (k : κ) :
    denseGet l k = none ↔ ∀ x ∈ l, x.1 ≠ k := by
  induction l with
  | nil => simp [denseGet]
  | cons hd tl ih =>
    by_cases h : hd.1 = k
    · simp [denseGet, h]
    · simp [denseGet, h, ih]

theorem denseGet_some_mem (l : List (κ × α)) (k : κ) (v : α)
    (h : denseGet l k = some v) : (k, v) ∈ l := by
  induction l with
  | nil => simp [denseGet] at h
  | cons hd tl ih =>
    by_cases hh : hd.1 = k
    · simp only [denseGet, if_pos hh] at h
      have h2 : hd.2 = v := by injection h
      subst h2
      subst hh
      rw [Prod.mk.eta]
      exact List.mem_cons_self _ _
    · simp only [denseGet, if_neg hh] at h
      exact List.mem_cons_of_mem _ (ih h)

theorem twf_empty (τ : Type) : TWF (TypeTable.empty τ) := by
  refine ⟨?_, ?_, ?_⟩ <;> simp [TypeTable.empty]

theorem twf_getTypeId [DecidableEq τ] (r : TypeTable τ) (t : τ) (h : TWF r)
    (hroom : r.typeIdGen + 1 < 2 ^ 64) : TWF (getTypeId r t).2 := by
  obtain ⟨hlt, hfst, hsnd⟩ := h
  unfold getTypeId
  cases hg : denseGet r.typeIds t with
  | some i => exact ⟨hlt, hfst, hsnd⟩
  | none =>
    rw [denseGet_eq_none_iff] at hg
    refine ⟨?_, ?_, ?_⟩
    · intro x hx
      simp only [List.mem_append, List.mem_singleton] at hx
      rw [Nat.mod_eq_of_lt hroom]
      rcases hx with hx | hx
      · exact lt_trans (hlt x hx) (Nat.lt_succ_self _)
      · rw [hx]
        exact Nat.lt_succ_self _
    · simp only [List.map_append, List.map_cons, List.map_nil]
      rw [List.nodup_append]
      refine ⟨hfst, List.nodup_singleton _, ?_⟩
      intro a ha hb
      simp only [List.mem_singleton] at hb
      subst hb
      obtain ⟨x, hx, hx1⟩ := List.mem_map.1 ha
      exact hg x hx hx1
    · simp only [List.map_append, List.map_cons, List.map_nil]
      rw [List.nodup_append]
      refine ⟨hsnd, List.nodup_singleton _, ?_⟩
      intro a ha hb
      simp only [List.mem_singleton] at hb
      subst hb
      obtain ⟨x, hx, hx2⟩ := List.mem_map.1 ha
      exact absurd (hx2 ▸ hlt x hx) (lt_irrefl _)

theorem getTypeId_stable [DecidableEq τ] (r : TypeTable τ) (t : τ) :
    getTypeId (getTypeId r t).2 t = ((getTypeId r t).1, (getTypeId r t).2) := by
  unfold getTypeId
  cases hg : denseGet r.typeIds t with
  | some i => simp [hg]
  | none =>
    simp only
    rw [denseGet_append, hg]
    simp [denseGet]

theorem getTypeId_inj [DecidableEq τ] (r : TypeTable τ) (t t' : τ)
    (h : TWF r) (hne : t ≠ t') :
    (getTypeId (getTypeId r t).2 t').1 ≠ (getTypeId r t).1 := by
  obtain ⟨hlt, hfst, hsnd⟩ := h
  unfold getTypeId
  cases hg : denseGet r.typeIds t with
  | some i =>
    simp only
    cases hg' : denseGet r.typeIds t' with
    | some j =>
      simp only
      intro hij
      have hmem : (t, i) ∈ r.typeIds := denseGet_some_mem _ _ _ hg
      have hmem' : (t', j) ∈ r.typeIds := denseGet_some_mem _ _ _ hg'
      have := List.inj_on_of_nodup_map hsnd hmem hmem' (by simpa using hij.symm)
      exact hne (congrArg Prod.fst this)
    | none =>
      simp only
      intro hij
      have hmem : (t, i) ∈ r.typeIds := denseGet_some_mem _ _ _ hg
      have := hlt _ hmem
      omega
  | none =>
    simp only
    rw [denseGet_append]
    cases hg' : denseGet r.typeIds t' with
    | some j =>
      simp only
      intro hij
      have hmem' : (t', j) ∈ r.typeIds := denseGet_some_mem _ _ _ hg'
      have := hlt _ hmem'
      omega
    | none =>
      have : denseGet [(t, r.typeIdGen)] t' = none := by
        simp [denseGet, hne]
      rw [this]
      simp only
      omega

theorem getTypeId_fresh [DecidableEq τ] (r : TypeTable τ) (t : τ)
    (h : denseGet r.typeIds t = none) :
    (getTypeId r t).1 = r.typeIdGen ∧
      (getTypeId r t).2.typeIdGen = (r.typeIdGen + 1) % 2 ^ 64 := by
  unfold getTypeId
  rw [h]
  exact ⟨rfl, rfl⟩

/-- One `getTypeId` call per element, left to right: the type table after
a sequence of intervening type references. -/
def registerAll [DecidableEq τ] (r : TypeTable τ) : List τ → TypeTable τ
  | [] => r
  | u :: us => registerAll (getTypeId r u).2 us

theorem getTypeId_of_found [DecidableEq τ] (r : TypeTable τ) (t : τ) (i : Nat)
    (h : denseGet r.typeIds t = some i) : getTypeId r t = (i, r) := by
  unfold getTypeId
  rw [h]

theorem getTypeId_registers [DecidableEq τ] (r : TypeTable τ) (t : τ) :
    denseGet ((getTypeId r t).2).typeIds t = some (getTypeId r t).1 := by
  unfold getTypeId
  cases hg : denseGet r.typeIds t with
  | some i => exact hg
  | none =>
    simp only
    rw [denseGet_append, hg]
    simp [denseGet]

theorem denseGet_getTypeId_mono [DecidableEq τ] (r : TypeTable τ) (u t : τ) (i : Nat)
    (h : denseGet r.typeIds t = some i) :
    denseGet ((getTypeId r u).2).typeIds t = some i := by
  unfold getTypeId
  cases hg : denseGet r.typeIds u with
  | some j => exact h
  | none =>
    simp only
    rw [denseGet_append, h]

theorem denseGet_registerAll [DecidableEq τ] (us : List τ) (r : TypeTable τ)
    (t : τ) (i : Nat) (h : denseGet r.typeIds t = some i) :
    denseGet (registerAll r us).typeIds t = some i := by
  induction us generalizing r with
  | nil => exact h
  | cons u us ih => exact ih _ (denseGet_getTypeId_mono r u t i h)

/-- Stability across intervening allocations: once `t` has an identity,
any sequence of further `getTypeId` calls (for any types) leaves a table
in which `t` still resolves to that same identity. -/
theorem getTypeId_stable_across [DecidableEq τ] (r : TypeTable τ) (t : τ)
    (us : List τ) :
    getTypeId (registerAll (getTypeId r t).2 us) t =
      ((getTypeId r t).1, registerAll (getTypeId r t).2 us) :=
  getTypeId_of_found _ t _
    (denseGet_registerAll us _ t _ (getTypeId_registers r t))

theorem initPool_of_some (e : ECS Val) (t : Nat) (p : Pool (Val t))
    (hp : e.pools t = some p) : initPool e t = (p, e) := by
  unfold initPool
  rw [hp]

theorem Get_Remove_none (e : ECS Val) (id t : Nat) (h : WF e) :
    Get (e.Remove id) t id = none := by
  by_cases hm : t ∈ e.removers
  · cases hq : e.pools t with
    | none =>
      refine Get_pools_none _ _ _ ?_
      rw [Remove_pools, if_pos hm, hq]
      rfl
    | some q =>
      rw [Get_pools_some (e.Remove id) t id (q.remove id)
        (by rw [Remove_pools, if_pos hm, hq]; rfl)]
      exact Pool.get_remove_self q id
  · refine Get_pools_none _ _ _ ?_
    rw [Remove_pools, if_neg hm]
    cases hq : e.pools t with
    | none => rfl
    | some q => exact absurd (h t (by rw [hq]; rfl)) hm

theorem Get2_isSome_iff (e : ECS Val) (ta tb id : Nat) :
    (Get2 e ta tb id).isSome = true ↔
      (Get e ta id).isSome = true ∧ (Get e tb id).isSome = true := by
  unfold Get2 Get
  cases h1 : e.pools ta with
  | none => simp
  | some p1 =>
    cases h2 : e.pools tb with
    | none => simp
    | some p2 =>
      dsimp only
      cases g1 : p1.get id <;> cases g2 : p2.get id <;> simp

theorem Get3_isSome_iff (e : ECS Val) (ta tb tc id : Nat) :
    (Get3 e ta tb tc id).isSome = true ↔
      (Get e ta id).isSome = true ∧ (Get e tb id).isSome = true ∧
        (Get e tc id).isSome = true := by
  unfold Get3 Get
  cases h1 : e.pools ta with
  | none => simp
  | some p1 =>
    cases h2 : e.pools tb with
    | none => simp
    | some p2 =>
      cases h3 : e.pools tc with
      | none => simp
      | some p3 =>
        dsimp only
        cases g1 : p1.get id <;> cases g2 : p2.get id <;> cases g3 : p3.get id <;> simp

/-- A concrete registry over `Nat`-valued components, used to evaluate the
theorems on explicit inputs: type identity `0` has a pool holding a record
for entity `5`. -/
def demoE : ECS (fun _ => Nat) :=
  ⟨4096, 2 ^ 20, Function.update (fun _ => none) 0 (some ⟨[(5, 7)]⟩), [0], 0⟩

/-- The fresh registry over `Nat`-valued components, used as a concrete
input in the witnesses. -/
def newE : ECS (fun _ => Nat) := New

/-! ### The claims -/

/-- Claim C1: Set/Get round-trip — for every ECS state, type identity,
value and entity id, after `Set` the `Get` of that type and id returns the
stored value with found = true, whether or not the entity previously held
a record of that type. -/
theorem c1_set_get_roundtrip (Val : Nat → Type) (e : ECS Val) (t id : Nat) (v : Val t) :
    Get (Set e t id v) t id = some v :=
  Get_Set_self e t id v

/-- Claim C2: `Init` equals `Remove` followed by `Set`; in particular,
after `Set2[A,B]`, an `Init[A]` with a new value leaves `A` holding the
new value and every other component of that entity (in particular `B`)
removed. -/
theorem c2_init_resets (Val : Nat → Type) (e : ECS Val) (t ta tb id : Nat)
    (v : Val t) (a : Val ta) (b : Val tb) (a2 : Val ta)
    (hwf : WF e) (hab : ta ≠ tb) :
    (Init e t id v = Set (e.Remove id) t id v) ∧
    (Get (Init (Set2 e ta tb id a b) ta id a2) ta id = some a2) ∧
    (∀ t', t' ≠ ta → Get (Init (Set2 e ta tb id a b) ta id a2) t' id = none) := by
  refine ⟨Init_eq_Remove_Set e t id v, ?_, ?_⟩
  · rw [Init_eq_Remove_Set]
    exact Get_Set_self _ ta id a2
  · intro t' ht'
    rw [Init_eq_Remove_Set, Get_Set_ne_type _ _ _ _ _ _ ht']
    exact Get_Remove_none _ id t' (wf_Set2 e ta tb id a b hwf)

theorem c2_witness :
    (Init (newE) 0 0 5 =
      Set ((newE).Remove 0) 0 0 5) ∧
    (Get (Init (Set2 (newE) 0 1 0 1 2) 0 0 3) 0 0 = some 3) ∧
    (Get (Init (Set2 (newE) 0 1 0 1 2) 0 0 3) 1 0 = none) := by
  have h := c2_init_resets (fun _ => Nat) New 0 0 1 0 5 1 2 3 wf_New (by decide)
  exact ⟨h.1, h.2.1, h.2.2 1 (by decide)⟩

/-- Claim C3: `Remove` is idempotent and total — removing an entity twice
in a row leaves the state identical to removing it once, and removing an
id that holds no record in any pool leaves the state unchanged. -/
theorem c3_remove_idempotent_total (Val : Nat → Type) :
    (∀ (e : ECS Val) (id : Nat), (e.Remove id).Remove id = e.Remove id) ∧
    (∀ (e : ECS Val) (id : Nat),
      (∀ t (p : Pool (Val t)), e.pools t = some p → p.get id = none) →
        e.Remove id = e) :=
  ⟨fun e id => Remove_Remove e id, fun e id h => Remove_of_no_record e id h⟩

theorem c3_witness :
    ((demoE.Remove 2).Remove 2 = demoE.Remove 2) ∧ (demoE.Remove 2 = demoE) := by
  refine ⟨(c3_remove_idempotent_total (fun _ => Nat)).1 demoE 2,
    (c3_remove_idempotent_total (fun _ => Nat)).2 demoE 2 ?_⟩
  intro t p hp
  by_cases h0 : t = 0
  · subst h0
    simp only [demoE, Function.update_same, Option.some.injEq] at hp
    subst hp
    decide
  · simp [demoE, Function.update_noteq h0] at hp

/-- Claim C4: Join conjunction — an entity id appears in the output of
`Join[A,B]` iff `Get2[A,B]` finds it, and `Join` over a type whose pool
does not exist yields the empty sequence. -/
theorem c4_join_conjunction (Val : Nat → Type) (e : ECS Val) (ta tb id : Nat) :
    ((∃ a b, (id, a, b) ∈ Join e ta tb) ↔ (Get2 e ta tb id).isSome = true) ∧
    (e.pools ta = none ∨ e.pools tb = none → Join e ta tb = []) :=
  ⟨Join_mem_iff e ta tb id, Join_empty_of_absent e ta tb⟩

theorem c4_witness :
    ((∃ a b, ((2 : Nat), a, b) ∈ Join (newE) 0 1) ↔
      (Get2 (newE) 0 1 2).isSome = true) ∧
    Join (newE) 0 1 = [] :=
  ⟨(c4_join_conjunction (fun _ => Nat) New 0 1 2).1,
    (c4_join_conjunction (fun _ => Nat) New 0 1 2).2 (Or.inl rfl)⟩

/-- Claim C5: multi-type Get is conjunctive and never faults — `Get`
returns not-found when the pool is absent, it finds the entity exactly
when the pool exists and holds a record for it, and `Get2`/`Get3` find
exactly when every named type individually finds. -/
theorem c5_get_conjunctive (Val : Nat → Type) (e : ECS Val) (t ta tb tc id : Nat) :
    (e.pools t = none → Get e t id = none) ∧
    ((Get e t id).isSome = true ↔
      ∃ p, e.pools t = some p ∧ (p.get id).isSome = true) ∧
    ((Get2 e ta tb id).isSome = true ↔
      (Get e ta id).isSome = true ∧ (Get e tb id).isSome = true) ∧
    ((Get3 e ta tb tc id).isSome = true ↔
      (Get e ta id).isSome = true ∧ (Get e tb id).isSome = true ∧
        (Get e tc id).isSome = true) := by
  refine ⟨Get_pools_none e t id, ?_, Get2_isSome_iff e ta tb id, Get3_isSome_iff e ta tb tc id⟩
  unfold Get
  cases hp : e.pools t with
  | none => simp
  | some p => simp

theorem c5_witness :
    (Get (newE) 0 2 = none) ∧
    ((Get (newE) 0 2).isSome = true ↔
      ∃ p, (newE).pools 0 = some p ∧ (p.get 2).isSome = true) ∧
    ((Get2 (newE) 0 1 2).isSome = true ↔
      (Get (newE) 0 2).isSome = true ∧
        (Get (newE) 1 2).isSome = true) ∧
    ((Get3 (newE) 0 1 3 2).isSome = true ↔
      (Get (newE) 0 2).isSome = true ∧
        (Get (newE) 1 2).isSome = true ∧
          (Get (newE) 3 2).isSome = true) := by
  have h := c5_get_conjunctive (fun _ => Nat) New 0 0 1 3 2
  exact ⟨h.1 rfl, h.2.1, h.2.2.1, h.2.2.2⟩

/-- Claim C6: Unset narrows only the named type — it leaves every other
pool unchanged, is a no-op when the pool is absent or the entity holds no
record of that type, and after `Set2[A,B]` an `Unset[A]` leaves `B`
retrievable and `A` absent. -/
theorem c6_unset_narrows (Val : Nat → Type) (e : ECS Val) (t ta tb id : Nat)
    (a : Val ta) (b : Val tb) (hab : ta ≠ tb) :
    (∀ t', t' ≠ t → (Unset e t id).pools t' = e.pools t') ∧
    (e.pools t = none → Unset e t id = e) ∧
    (Get e t id = none → Unset e t id = e) ∧
    (Get (Unset (Set2 e ta tb id a b) ta id) tb id = some b) ∧
    (Get (Unset (Set2 e ta tb id a b) ta id) ta id = none) := by
  refine ⟨fun t' ht' => Unset_pools_ne e t t' id ht',
    Unset_of_pools_none e t id, Unset_of_Get_none e t id, ?_, ?_⟩
  · have hfr : (Unset (Set2 e ta tb id a b) ta id).pools tb =
        (Set2 e ta tb id a b).pools tb :=
      Unset_pools_ne _ ta tb id (Ne.symm hab)
    rw [Get_pools_some _ _ _ _ (hfr.trans (Set2_pools_right e ta tb id a b hab))]
    exact Pool.get_add_self _ id b
  · rw [Get_pools_some _ _ _ _
      (Unset_pools_self _ ta id _ (Set2_pools_left e ta tb id a b hab))]
    exact Pool.get_remove_self _ id

theorem c6_witness :
    ((Unset (newE) 5 2).pools 1 =
      (newE).pools 1) ∧
    (Unset (newE) 5 2 = New) ∧
    (Get (Unset (Set2 (newE) 0 1 2 3 4) 0 2) 1 2 = some 4) ∧
    (Get (Unset (Set2 (newE) 0 1 2 3 4) 0 2) 0 2 = none) := by
  have h := c6_unset_narrows (fun _ => Nat) New 5 0 1 2 3 4 (by decide)
  exact ⟨h.1 1 (by decide), h.2.1 rfl, h.2.2.2.1, h.2.2.2.2⟩

/-- A registry whose id counter sits just below the sign boundary of the
64-bit Go `int` — the state reached after `2 ^ 63 - 1` calls to `Add`. -/
def wrapE : ECS (fun _ => Nat) :=
  ⟨4096, 2 ^ 20, fun _ => none, [], 2 ^ 63 - 1⟩

/-- Counterexample to claim C7 as stated: at the counter value
`2 ^ 63 - 1` the next increment wraps the Go `int`, so two successive
`Add` calls return ids `2 ^ 63 - 1` and then `-2 ^ 63` — strictly
decreasing as Go ints, not increasing. -/
theorem c7_counterexample :
    ¬ List.Pairwise (fun i j => goSigned i < goSigned j)
      (run wrapE [Op.add, Op.add]).2 := by
  have hids : (run wrapE [Op.add, Op.add]).2 = [2 ^ 63 - 1, 2 ^ 63] := by
    rw [run_cons_add, run_cons_add]
    rfl
  rw [hids]
  intro hp
  have := List.rel_of_pairwise_cons hp (List.mem_singleton.2 rfl)
  revert this
  decide

/-- Claim C7 (amended): so long as the 64-bit id counter does not
overflow — the initial counter plus the number of `Add` calls stays below
`2 ^ 63` — the ids returned by the `Add` calls over any operation
sequence are strictly increasing as Go ints (hence never repeated), even
across intervening `Remove` calls; and `Add` itself touches no pool and
only increments the counter modulo `2 ^ 64`. -/
theorem c7_add_monotonic (Val : Nat → Type) (e : ECS Val) (ops : List (Op Val))
    (h : e.idGenerator + addCount ops < 2 ^ 63) :
    List.Pairwise (fun i j => goSigned i < goSigned j) (run e ops).2 ∧
    List.Pairwise (· < ·) (run e ops).2 ∧
    (ECS.Add e).2.pools = e.pools ∧
    (ECS.Add e).2.removers = e.removers ∧
    (ECS.Add e).1 = e.idGenerator ∧
    (ECS.Add e).2.idGenerator = (e.idGenerator + 1) % 2 ^ 64 := by
  have h64 : e.idGenerator + addCount ops < 2 ^ 64 :=
    lt_trans h (by norm_num)
  obtain ⟨hb, hp, hg⟩ := run_no_wrap ops e h64
  refine ⟨?_, hp, rfl, rfl, rfl, rfl⟩
  refine List.Pairwise.imp_of_mem ?_ hp
  intro a b ha hb' hab
  have ha63 : a < 2 ^ 63 := lt_of_lt_of_le (hb a ha).2 (le_of_lt h)
  have hb63 : b < 2 ^ 63 := lt_of_lt_of_le (hb b hb').2 (le_of_lt h)
  unfold goSigned
  rw [if_pos ha63, if_pos hb63]
  exact_mod_cast hab

theorem c7_witness :
    List.Pairwise (fun i j => goSigned i < goSigned j)
      (run newE [Op.add, Op.remove 0, Op.add]).2 ∧
    List.Pairwise (· < ·) (run newE [Op.add, Op.remove 0, Op.add]).2 ∧
    (ECS.Add newE).2.pools = newE.pools ∧
    (ECS.Add newE).2.removers = newE.removers ∧
    (ECS.Add newE).1 = newE.idGenerator ∧
    (ECS.Add newE).2.idGenerator = (newE.idGenerator + 1) % 2 ^ 64 :=
  c7_add_monotonic (fun _ => Nat) newE [Op.add, Op.remove 0, Op.add] (by decide)

/-- A type identity table immediately after the 64-bit counter has
wrapped: type `0` received identity `0` at process start, and `2 ^ 64`
allocations later `typeIdGen` is `0` again. -/
def wrapT : TypeTable Nat := ⟨0, [(0, 0)]⟩

/-- Counterexample to claim C8 as stated: the identity counter is a
wrapping Go `int`, so allocating at counter value `2 ^ 64 - 1` wraps the
counter back to `0`; in the post-wrap table the fresh type `1` is then
assigned identity `0`, which type `0` already holds — two statically
distinct types share an identity, so the mapping is not a bijection. -/
theorem c8_counterexample :
    ((getTypeId (TypeTable.mk (2 ^ 64 - 1) ([] : List (Nat × Nat))) 0).2.typeIdGen = 0) ∧
    ((getTypeId wrapT 1).1 = (getTypeId wrapT 0).1 ∧ (1 : Nat) ≠ 0) := by
  refine ⟨?_, by decide, by decide⟩
  show (2 ^ 64 - 1 + 1) % 2 ^ 64 = 0
  norm_num

/-- Claim C8 (amended): so long as the 64-bit identity counter has
headroom (it does not overflow at this allocation), starting from the
empty table the well-formedness invariant holds and is preserved, a
reference to an already-known type returns the same identity and leaves
the table unchanged — also after arbitrarily many intervening allocations
for other types — two distinct types never share an identity, and a first
reference to a fresh type allocates exactly the current counter value and
bumps the counter modulo `2 ^ 64`. -/
theorem c8_type_identity (τ : Type) [DecidableEq τ] (r : TypeTable τ) (t t' : τ)
    (us : List τ) (h : TWF r) (hroom : r.typeIdGen + 1 < 2 ^ 64) (hne : t ≠ t') :
    TWF (TypeTable.empty τ) ∧
    TWF (getTypeId r t).2 ∧
    (getTypeId (getTypeId r t).2 t = ((getTypeId r t).1, (getTypeId r t).2)) ∧
    (getTypeId (registerAll (getTypeId r t).2 us) t =
      ((getTypeId r t).1, registerAll (getTypeId r t).2 us)) ∧
    ((getTypeId (getTypeId r t).2 t').1 ≠ (getTypeId r t).1) ∧
    (denseGet r.typeIds t = none →
      (getTypeId r t).1 = r.typeIdGen ∧
        (getTypeId r t).2.typeIdGen = (r.typeIdGen + 1) % 2 ^ 64) :=
  ⟨twf_empty τ, twf_getTypeId r t h hroom, getTypeId_stable r t,
    getTypeId_stable_across r t us, getTypeId_inj r t t' h hne,
    getTypeId_fresh r t⟩

theorem c8_witness :
    TWF (TypeTable.empty Nat) ∧
    TWF (getTypeId (TypeTable.empty Nat) 0).2 ∧
    (getTypeId (getTypeId (TypeTable.empty Nat) 0).2 0 =
      ((getTypeId (TypeTable.empty Nat) 0).1, (getTypeId (TypeTable.empty Nat) 0).2)) ∧
    (getTypeId (registerAll (getTypeId (TypeTable.empty Nat) 0).2 [5, 7]) 0 =
      ((getTypeId (TypeTable.empty Nat) 0).1,
        registerAll (getTypeId (TypeTable.empty Nat) 0).2 [5, 7])) ∧
    ((getTypeId (getTypeId (TypeTable.empty Nat) 0).2 1).1 ≠
      (getTypeId (TypeTable.empty Nat) 0).1) ∧
    ((getTypeId (TypeTable.empty Nat) 0).1 = (TypeTable.empty Nat).typeIdGen ∧
      (getTypeId (TypeTable.empty Nat) 0).2.typeIdGen =
        ((TypeTable.empty Nat).typeIdGen + 1) % 2 ^ 64) := by
  have h := c8_type_identity Nat (TypeTable.empty Nat) 0 1 [5, 7]
    (twf_empty Nat) (by norm_num [TypeTable.empty]) (by decide)
  exact ⟨h.1, h.2.1, h.2.2.1, h.2.2.2.1, h.2.2.2.2.1, h.2.2.2.2.2 rfl⟩

/-- Claim C9: pool uniqueness and creation idempotence — a second creation
request for an already-created pool returns the very same pool and leaves
the whole registry (pool map and fan-out list included) unchanged, and no
operation ever destroys an existing pool. -/
theorem c9_pool_uniqueness (Val : Nat → Type) (e : ECS Val) (t : Nat) (op : Op Val)
    (h : (e.pools t).isSome = true) :
    (initPool (initPool e t).2 t = ((initPool e t).1, (initPool e t).2)) ∧
    (((applyOp e op).1.pools t).isSome = true) :=
  ⟨initPool_of_some _ t _ (initPool_pools_self e t), pools_isSome_applyOp e op t h⟩

theorem c9_witness :
    (initPool (initPool demoE 0).2 0 = ((initPool demoE 0).1, (initPool demoE 0).2)) ∧
    (((applyOp demoE (Op.remove 2)).1.pools 0).isSome = true) :=
  c9_pool_uniqueness (fun _ => Nat) demoE 0 (Op.remove 2)
    (by simp [demoE, Function.update_same])

/-- Claim C10: entity ids are never validated — `Set` followed by `Get`
succeeds for any entity id, including ids at or above the current counter
(never issued by `Add`) and ids that were just removed. -/
theorem c10_no_id_validation (Val : Nat → Type) (e : ECS Val) (t id : Nat) (v : Val t)
    (h : e.idGenerator ≤ id) :
    Get (Set e t id v) t id = some v ∧
    Get (Set (e.Remove id) t id v) t id = some v :=
  ⟨Get_Set_self e t id v, Get_Set_self (e.Remove id) t id v⟩

theorem c10_witness :
    Get (Set (newE) 0 1000000 7) 0 1000000 = some 7 ∧
    Get (Set ((newE).Remove 1000000) 0 1000000 7) 0 1000000 = some 7 :=
  c10_no_id_validation (fun _ => Nat) New 0 1000000 7 (by decide)

end GoECS
